import Mathlib

/-!
Shallow embedding of the YouTube-Storage codec (packet framing, CRC32,
metadata codec, pixel mapping and the LT-style fountain layer).

JavaScript 32-bit integer values are represented by their unsigned bit
pattern, a `Nat` below `2^32`.  JavaScript `x ^ y`, `x | y`, `x & y` act on
these patterns directly; `x << k` is `(x <<< k) % 2^32`; `x >>> k` is
`x >>> k`; `x >> k` (sign-propagating) fills the vacated high bits with the
sign bit, see `jsSar17`.  A JavaScript `number` that can be `NaN` is
modelled as `Option Nat` with `none` for `NaN`.
Byte buffers (`Uint8Array`) are `List Nat` whose entries are below 256;
`a[i] || 0` is `List.getD a i 0`.
-/

def UINT32 : Nat := 4294967296

/-- JavaScript `x >> 17` on a 32-bit pattern: shift right seventeen,
filling the seventeen vacated high bits with the sign bit. -/
def jsSar17 (x : Nat) : Nat :=
  (x >>> 17) + (if x < 2 ^ 31 then 0 else UINT32 - 2 ^ 15)

/-- One call of the closure returned by `xorshift32` (fountain source):
`state ^= state << 13; state ^= state >> 17; state ^= state << 5;
return state >>> 0;`.  Note the middle shift is JavaScript `>>`,
an arithmetic (sign-propagating) shift. -/
def xorshift32Step (x : Nat) : Nat :=
  let a := x ^^^ ((x <<< 13) % UINT32)
  let b := a ^^^ jsSar17 a
  b ^^^ ((b <<< 5) % UINT32)

/-- The initial PRNG state for repair packet `r`:
`xorshift32(repairIndex * 2654435761 + 1)` stores `seed | 1`; the `| 1`
coerces to 32 bits (`ToInt32`), i.e. reduces the product modulo `2^32`. -/
def seedOf (r : Nat) : Nat := ((r * 2654435761 + 1) % UINT32) ||| 1

/-- JavaScript `a % n` for a nonnegative 32-bit `a` and a `Nat` divisor:
`NaN` (`none`) when the divisor is zero. -/
def jsModOpt (a n : Nat) : Option Nat :=
  if n = 0 then none else some (a % n)

/-- The degree computation `2 + (rng() % Math.min(4, sourceCount - 1))`.
`sourceCount - 1` is signed in JavaScript, so the divisor is an `Int`;
the remainder of a nonnegative dividend by a nonzero divisor has the
dividend's sign and the divisor's absolute value; a zero divisor gives
`NaN`, and `2 + NaN = NaN`. -/
def degreeOf (v : Nat) (n : Nat) : Option Nat :=
  let d : Int := min 4 ((n : Int) - 1)
  if d = 0 then none else some (2 + v % d.natAbs)

/-- JavaScript `Set.add` with SameValueZero equality (so `NaN` equals `NaN`),
keeping insertion order as `Array.from` does. -/
def setAdd (sel : List (Option Nat)) (v : Option Nat) : List (Option Nat) :=
  if v ∈ sel then sel else sel ++ [v]

/-- JavaScript `size < degree`: false when `degree` is `NaN`. -/
def sizeLt (a : Nat) : Option Nat → Bool
  | none => false
  | some d => a < d

/-- The `while (selected.size < degree) selected.add(rng() % sourceCount)`
loop, with explicit fuel (`none` when the fuel runs out, i.e. the source
loop has not terminated within `fuel` iterations). -/
def selectLoop (n : Nat) (degree : Option Nat) :
    Nat → Nat → List (Option Nat) → Option (List (Option Nat))
  | 0, _, sel => if sizeLt sel.length degree then none else some sel
  | fuel + 1, s, sel =>
    if sizeLt sel.length degree then
      selectLoop n degree fuel (xorshift32Step s)
        (setAdd sel (jsModOpt (xorshift32Step s) n))
    else some sel

/-- The source function `getRepairSources(repairIndex, sourceCount)`: seed the
PRNG, draw the degree, then draw `rng() % sourceCount` into a set until it
has `degree` members.  Elements are `Option Nat` because `rng() % 0` is
`NaN`. -/
def getRepairSourcesRaw (fuel r n : Nat) : Option (List (Option Nat)) :=
  let s1 := xorshift32Step (seedOf r)
  selectLoop n (degreeOf s1 n) fuel s1 []

/-- Collapse a list of JavaScript numbers to a list of `Nat`, defined
exactly when no entry is `NaN` (which holds whenever `sourceCount ≥ 1`). -/
def natList? : List (Option Nat) → Option (List Nat)
  | [] => some []
  | none :: _ => none
  | some a :: rest => (natList? rest).map (a :: ·)

/-- The result of `getRepairSources` viewed as a list of `Nat` indices. -/
def getRepairSources (fuel r n : Nat) : Option (List Nat) :=
  (getRepairSourcesRaw fuel r n).bind natList?

/-- The decoder helper `deriveRepairSources` re-derives the indices during decoding; the
source merely forwards to `getRepairSources`. -/
def deriveRepairSources (fuel r n : Nat) : Option (List Nat) :=
  getRepairSources fuel r n

/-- The source function `xorBytes`: length is the max of the two lengths, entries are
`(a[i] || 0) ^ (b[i] || 0)`. -/
def xorBytes (a b : List Nat) : List Nat :=
  (List.range (max a.length b.length)).map
    (fun i => (a.getD i 0) ^^^ (b.getD i 0))

structure RepairPacket where
  repairIndex : Nat
  sourceIndices : List Nat
  data : List Nat
  deriving Repr, DecidableEq

/-- Sequence a list of `Option`s (the per-repair results). -/
def options? {α : Type} : List (Option α) → Option (List α)
  | [] => some []
  | none :: _ => none
  | some a :: rest => (options? rest).map (a :: ·)

/-- The source function `generateRepairPackets(sourcePackets, 0.3)`:
`repairCount = Math.max(1, Math.ceil(n * 0.3))` — for a `Nat` count this is
`max 1 (⌈3n/10⌉)` (the floating-point product agrees with the rational one
on every `n` this development instantiates); for each `r` the source
indices are drawn and their chunks XOR-folded into a zero buffer of length
`sourcePackets[0].length`. -/
def generateRepairPackets (fuel : Nat) (sourcePackets : List (List Nat)) :
    Option (List RepairPacket) :=
  let n := sourcePackets.length
  let repairCount := max 1 ((3 * n + 9) / 10)
  (options? ((List.range repairCount).map (fun r => getRepairSources fuel r n))).map
    (fun sets =>
      ((List.range repairCount).zip sets).map (fun p =>
        { repairIndex := p.1
          sourceIndices := p.2
          data := p.2.foldl (fun d idx => xorBytes d (sourcePackets.getD idx []))
            (List.replicate (sourcePackets.headD []).length 0) }))

/-- One repair packet visit inside a recovery pass: collect the
still-absent indices; if exactly one, XOR the repair data with every
known source in the set and fill the missing slot. -/
def recoverStep (rec : List (Option (List Nat))) (repair : RepairPacket) :
    List (Option (List Nat)) × Bool :=
  let missing := repair.sourceIndices.filter (fun idx => (rec.getD idx none).isNone)
  match missing with
  | [missingIdx] =>
    let data := repair.sourceIndices.foldl
      (fun d idx =>
        if idx = missingIdx then d
        else match rec.getD idx none with
          | some b => xorBytes d b
          | none => d)
      repair.data
    (rec.set missingIdx (some data), true)
  | _ => (rec, false)

/-- One full pass of the `for (const repair of repairPackets)` loop,
threading the mutated slot list and the `changed` flag. -/
def onePass : List RepairPacket → List (Option (List Nat)) → Bool →
    List (Option (List Nat)) × Bool
  | [], rec, changed => (rec, changed)
  | rep :: rest, rec, changed =>
    let (rec', ch) := recoverStep rec rep
    onePass rest rec' (changed || ch)

/-- The `while (changed)` loop with fuel. -/
def recoverLoop : Nat → List RepairPacket → List (Option (List Nat)) →
    List (Option (List Nat))
  | 0, _, rec => rec
  | fuel + 1, repairs, rec =>
    let (rec', ch) := onePass repairs rec false
    if ch then recoverLoop fuel repairs rec' else rec'

/-- The source function `recoverPackets(sourcePackets, repairPackets, packetSize)`.  The while
loop needs at most `|sources| + 1` passes: every pass except the last one
turns at least one absent slot into a recovered one (that is the only way
`changed` becomes true) and slots never become absent again, so the fuel
`|sources| + 1` realises the unbounded source loop.  `packetSize` is
accepted and ignored, exactly as in the source. -/
def recoverPackets (sourcePackets : List (Option (List Nat)))
    (repairPackets : List RepairPacket) (packetSize : Nat) :
    List (Option (List Nat)) :=
  recoverLoop (sourcePackets.length + 1) repairPackets sourcePackets

/-! ### Packet framing (`packets.ts`) -/

def MAGIC : Nat := 0xDB02
def FRAME_WIDTH : Nat := 1920
def FRAME_HEIGHT : Nat := 1080
/-- Bytes available per frame for raw packet data (RGB only). -/
def FRAME_BYTES : Nat := FRAME_WIDTH * FRAME_HEIGHT * 3
def HEADER_SIZE : Nat := 19
def MAX_PAYLOAD : Nat := FRAME_BYTES - HEADER_SIZE
def FLAG_ENCRYPTED : Nat := 0x01
def FLAG_REPAIR : Nat := 0x02

/-- The two bytes written by a little-endian `setUint16` (the stored value
is reduced modulo `2^16`, byte by byte). -/
def le2 (v : Nat) : List Nat := [v % 256, v / 256 % 256]

/-- The four bytes written by a little-endian `setUint32`. -/
def le4 (v : Nat) : List Nat :=
  [v % 256, v / 256 % 256, v / 65536 % 256, v / 16777216 % 256]

/-- Little-endian `getUint16` at `off` (in bounds for every caller below). -/
def readU16 (raw : List Nat) (off : Nat) : Nat :=
  raw.getD off 0 + 256 * raw.getD (off + 1) 0

/-- Little-endian `getUint32` at `off`. -/
def readU32 (raw : List Nat) (off : Nat) : Nat :=
  raw.getD off 0 + 256 * raw.getD (off + 1) 0 + 65536 * raw.getD (off + 2) 0
    + 16777216 * raw.getD (off + 3) 0

/-! ### CRC32 (`crc32.ts`) -/

/-- One step of the table generator:
`crc = (crc & 1) ? (0xEDB88320 ^ (crc >>> 1)) : (crc >>> 1)`. -/
def crcStep (c : Nat) : Nat :=
  if c &&& 1 = 1 then 0xEDB88320 ^^^ (c >>> 1) else c >>> 1

/-- The table entry `CRC32_TABLE[i]`: eight generator steps applied to `i`. -/
def crc32Table (i : Nat) : Nat := crcStep^[8] i

/-- The source function `crc32(data)`: table-driven, initial value `0xFFFFFFFF`, final XOR
`0xFFFFFFFF`. -/
def crc32 (data : List Nat) : Nat :=
  (data.foldl (fun crc b => crc32Table ((crc ^^^ b) &&& 0xFF) ^^^ (crc >>> 8))
    0xFFFFFFFF) ^^^ 0xFFFFFFFF

structure PacketHeader where
  magic : Nat
  flags : Nat
  packetIndex : Nat
  totalPackets : Nat
  payloadLength : Nat
  checksum : Nat
  deriving Repr, DecidableEq

/-- The source function `encodePacket(packetIndex, totalPackets, payload, flags)`: a fresh
zero buffer of `FRAME_BYTES` bytes, the 19-byte header written at offset
0 (magic `u16`, flags `u8`, three `u32` fields and the CRC, all
little-endian), the payload copied at offset 19, the rest left zero.
The copy presumes `payload.length ≤ MAX_PAYLOAD` (a longer payload makes
`Uint8Array.set` throw). -/
def encodePacket (packetIndex totalPackets : Nat) (payload : List Nat)
    (flags : Nat) : List Nat :=
  le2 MAGIC ++ [flags % 256] ++ le4 packetIndex ++ le4 totalPackets
    ++ le4 payload.length ++ le4 (crc32 payload) ++ payload
    ++ List.replicate (FRAME_BYTES - (HEADER_SIZE + payload.length)) 0

/-- The source function `decodePacket(raw)`: `null` when shorter than the header or the magic
mismatches; otherwise the header fields are read and the payload is
`raw.slice(19, 19 + payloadLength)` (a clamping slice). -/
def decodePacket (raw : List Nat) : Option (PacketHeader × List Nat) :=
  if raw.length < HEADER_SIZE then none
  else
    let magic := readU16 raw 0
    if magic ≠ MAGIC then none
    else
      let payloadLength := readU32 raw 11
      some ({ magic := magic
              flags := raw.getD 2 0
              packetIndex := readU32 raw 3
              totalPackets := readU32 raw 7
              payloadLength := payloadLength
              checksum := readU32 raw 15 },
            (raw.drop HEADER_SIZE).take payloadLength)

/-- The source function `verifyPacket(payload, expectedChecksum)`. -/
def verifyPacket (payload : List Nat) (expectedChecksum : Nat) : Bool :=
  crc32 payload == expectedChecksum

/-! ### Metadata codec (`packets.ts`)

`TextEncoder`/`TextDecoder` are the runtime's UTF-8 codec, mutually
inverse on well-formed strings; a string argument is therefore
represented here by its UTF-8 byte sequence. -/

/-- The source function `encodeMetadata(filename, fileSize, mimeType, isEncrypted)`:
`[u32 nameLen][name][u32 fileSize][u32 mimeLen][mime][u8 encrypted]`,
written sequentially into a buffer of exactly that size. -/
def encodeMetadata (nameBytes : List Nat) (fileSize : Nat)
    (mimeBytes : List Nat) (isEncrypted : Bool) : List Nat :=
  le4 nameBytes.length ++ nameBytes ++ le4 fileSize ++ le4 mimeBytes.length
    ++ mimeBytes ++ [if isEncrypted then 1 else 0]

/-- Reading a `getUint32` through a `DataView`: throws a `RangeError` when the read
overruns the buffer; the throw is modelled as `none`. -/
def getU32? (raw : List Nat) (off : Nat) : Option Nat :=
  if off + 4 ≤ raw.length then some (readU32 raw off) else none

/-- The source function `decodeMetadata(payload)`: reads the two length prefixes and the size
through a `DataView` (`none` models the `RangeError` thrown by an
out-of-bounds read), slices the strings (clamping, so a declared length
past the end yields a truncated string), and compares the final byte to 1
(an out-of-bounds read there is `undefined`, which is not `=== 1`). -/
def decodeMetadata (payload : List Nat) :
    Option (List Nat × Nat × List Nat × Bool) :=
  (getU32? payload 0).bind fun nameLen =>
  let filename := (payload.drop 4).take nameLen
  (getU32? payload (4 + nameLen)).bind fun fileSize =>
  (getU32? payload (8 + nameLen)).bind fun mimeLen =>
  let mimeType := (payload.drop (12 + nameLen)).take mimeLen
  let isEncrypted := payload.getD (12 + nameLen + mimeLen) 0 == 1
  some (filename, fileSize, mimeType, isEncrypted)

/-! ### Pixel conversion (`packets.ts`) -/

/-- A write into a `Uint8ClampedArray` clamps to `0..255` (the inputs
here are nonnegative integers, so only the upper clamp can act). -/
def clamp8 (v : Nat) : Nat := min v 255

/-- The source function `bytesToPixels(data)`: for each of the `1920·1080` pixels emit
`[data[3i] || 0, data[3i+1] || 0, data[3i+2] || 0, 255]`. -/
def bytesToPixels (data : List Nat) : List Nat :=
  (List.range (FRAME_WIDTH * FRAME_HEIGHT)).flatMap (fun i =>
    [clamp8 (data.getD (3 * i) 0), clamp8 (data.getD (3 * i + 1) 0),
     clamp8 (data.getD (3 * i + 2) 0), 255])

/-- The source function `pixelsToBytes(pixels)`: for each of the `pixels.length / 4` pixels
emit the R, G, B components and drop A. -/
def pixelsToBytes (pixels : List Nat) : List Nat :=
  (List.range (pixels.length / 4)).flatMap (fun i =>
    [pixels.getD (4 * i) 0, pixels.getD (4 * i + 1) 0,
     pixels.getD (4 * i + 2) 0])

/-! ### Byte-buffer and read/write lemmas -/

lemma getD_replicate_zero (n m : Nat) : (List.replicate n (0 : Nat)).getD m 0 = 0 := by
  induction n generalizing m with
  | zero => simp [List.getD]
  | succ k ih =>
    cases m with
    | zero => simp [List.replicate]
    | succ m' => simpa [List.replicate] using ih m'

lemma readU16_cons (b : Nat) (l : List Nat) (off : Nat) :
    readU16 (b :: l) (off + 1) = readU16 l off := by
  simp [readU16, Nat.add_assoc]

lemma readU32_cons (b : Nat) (l : List Nat) (off : Nat) :
    readU32 (b :: l) (off + 1) = readU32 l off := by
  simp [readU32, Nat.add_assoc]

lemma readU32_le4_append (v : Nat) (rest : List Nat) (hv : v < UINT32) :
    readU32 (le4 v ++ rest) 0 = v := by
  simp only [le4, List.cons_append, readU32, List.getD_cons_zero, List.getD_cons_succ,
    Nat.zero_add]
  simp only [UINT32] at hv
  omega

lemma xor_lt_u32 {x y : Nat} (hx : x < UINT32) (hy : y < UINT32) :
    x ^^^ y < UINT32 := by
  have h32 : UINT32 = 2 ^ 32 := by norm_num [UINT32]
  rw [h32] at hx hy ⊢
  exact Nat.xor_lt_two_pow hx hy

lemma shiftRight_lt_u32 {x : Nat} (k : Nat) (hx : x < UINT32) :
    x >>> k < UINT32 := by
  rw [Nat.shiftRight_eq_div_pow]
  exact lt_of_le_of_lt (Nat.div_le_self _ _) hx

lemma crcStep_lt (c : Nat) (h : c < UINT32) : crcStep c < UINT32 := by
  unfold crcStep
  split
  · exact xor_lt_u32 (by norm_num [UINT32]) (shiftRight_lt_u32 1 h)
  · exact shiftRight_lt_u32 1 h

lemma crc32Table_lt (i : Nat) (h : i < UINT32) : crc32Table i < UINT32 := by
  unfold crc32Table
  have : ∀ k x, x < UINT32 → crcStep^[k] x < UINT32 := by
    intro k
    induction k with
    | zero => intro x hx; simpa using hx
    | succ m ih =>
      intro x hx
      rw [Function.iterate_succ_apply]
      exact ih _ (crcStep_lt x hx)
  exact this 8 i h

lemma crc32_lt (data : List Nat) : crc32 data < UINT32 := by
  unfold crc32
  have hfold : ∀ (l : List Nat) (a : Nat), a < UINT32 →
      (l.foldl (fun crc b => crc32Table ((crc ^^^ b) &&& 0xFF) ^^^ (crc >>> 8)) a) < UINT32 := by
    intro l
    induction l with
    | nil => intro a ha; simpa using ha
    | cons x xs ih =>
      intro a ha
      refine ih _ (xor_lt_u32 ?_ ?_)
      · exact crc32Table_lt _ (lt_of_le_of_lt Nat.and_le_right (by norm_num [UINT32]))
      · exact shiftRight_lt_u32 8 ha
  exact xor_lt_u32 (hfold _ _ (by norm_num [UINT32])) (by norm_num [UINT32])

lemma encodePacket_length (i t f : Nat) (p : List Nat)
    (hp : p.length ≤ MAX_PAYLOAD) :
    (encodePacket i t p f).length = FRAME_BYTES := by
  have hMP : MAX_PAYLOAD = 6220781 := rfl
  have hFB : FRAME_BYTES = 6220800 := rfl
  have hHS : HEADER_SIZE = 19 := rfl
  simp only [encodePacket, le2, le4, List.length_append, List.length_cons,
    List.length_nil, List.length_replicate]
  rw [hMP] at hp
  rw [hFB, hHS]
  omega

lemma encodePacket_readU16_0 (i t f : Nat) (p : List Nat) :
    readU16 (encodePacket i t p f) 0 = MAGIC := by
  simp only [encodePacket, le2, List.cons_append]
  norm_num [readU16, MAGIC]

lemma encodePacket_getD_2 (i t f : Nat) (p : List Nat) :
    (encodePacket i t p f).getD 2 0 = f % 256 := by
  simp only [encodePacket, le2, List.cons_append]
  norm_num

lemma encodePacket_readU32_3 (i t f : Nat) (p : List Nat) (hi : i < UINT32) :
    readU32 (encodePacket i t p f) 3 = i := by
  simp only [encodePacket, le2, le4, MAGIC, List.cons_append]
  norm_num [readU32_cons]
  simp only [readU32, List.getD_cons_zero, List.getD_cons_succ]
  simp only [UINT32] at hi
  omega

lemma encodePacket_readU32_7 (i t f : Nat) (p : List Nat) (ht : t < UINT32) :
    readU32 (encodePacket i t p f) 7 = t := by
  simp only [encodePacket, le2, le4, MAGIC, List.cons_append]
  norm_num [readU32_cons]
  simp only [readU32, List.getD_cons_zero, List.getD_cons_succ]
  simp only [UINT32] at ht
  omega

lemma encodePacket_readU32_11 (i t f : Nat) (p : List Nat)
    (hl : p.length < UINT32) :
    readU32 (encodePacket i t p f) 11 = p.length := by
  simp only [encodePacket, le2, le4, MAGIC, List.cons_append]
  norm_num [readU32_cons]
  simp only [readU32, List.getD_cons_zero, List.getD_cons_succ]
  simp only [UINT32] at hl
  omega

lemma encodePacket_readU32_15 (i t f : Nat) (p : List Nat) :
    readU32 (encodePacket i t p f) 15 = crc32 p := by
  have hc := crc32_lt p
  simp only [encodePacket, le2, le4, MAGIC, List.cons_append]
  norm_num [readU32_cons]
  simp only [readU32, List.getD_cons_zero, List.getD_cons_succ]
  simp only [UINT32] at hc
  omega

lemma encodePacket_drop_take (i t f : Nat) (p : List Nat) :
    ((encodePacket i t p f).drop HEADER_SIZE).take p.length = p := by
  have hHS : HEADER_SIZE = 19 := rfl
  rw [hHS]
  simp only [encodePacket, le2, le4, MAGIC, List.cons_append]
  norm_num [List.drop_succ_cons]

lemma encodePacket_tail_zero (i t f : Nat) (p : List Nat) :
    ∀ k, HEADER_SIZE + p.length ≤ k → (encodePacket i t p f).getD k 0 = 0 := by
  intro k hk
  have hHS : HEADER_SIZE = 19 := rfl
  rw [hHS] at hk
  obtain ⟨j, rfl⟩ : ∃ j, k = j + 19 := ⟨k - 19, by omega⟩
  simp only [encodePacket, le2, le4, MAGIC, List.cons_append]
  norm_num [List.getD_cons_succ]
  rw [List.getElem?_append_right (by omega)]
  rw [List.getElem?_replicate]
  split <;> rfl

/-! ### Claim C4: packet encode/decode round trip -/

/-- C4: for any payload of at most `MAX_PAYLOAD` bytes and header fields
fitting their widths, `encodePacket` yields exactly `FRAME_BYTES` bytes,
`decodePacket` of them succeeds with magic `0xDB02`, the given flags,
indices, `payloadLength = |p|`, `checksum = crc32 p` and payload `p`, and
every byte after header and payload is zero. -/
theorem encode_decode_packet_roundtrip (i t f : Nat) (p : List Nat)
    (hp : p.length ≤ MAX_PAYLOAD) (hi : i < UINT32) (ht : t < UINT32)
    (hf : f < 256) :
    (encodePacket i t p f).length = FRAME_BYTES ∧
    decodePacket (encodePacket i t p f) =
      some ({ magic := MAGIC, flags := f, packetIndex := i, totalPackets := t,
              payloadLength := p.length, checksum := crc32 p }, p) ∧
    ∀ k, HEADER_SIZE + p.length ≤ k → (encodePacket i t p f).getD k 0 = 0 := by
  have hlen := encodePacket_length i t f p hp
  have hlp : p.length < UINT32 := by
    have h1 : MAX_PAYLOAD = 6220781 := rfl
    simp only [UINT32]
    omega
  refine ⟨hlen, ?_, encodePacket_tail_zero i t f p⟩
  have hm := encodePacket_readU16_0 i t f p
  have h2 : (encodePacket i t p f).getD 2 0 = f := by
    rw [encodePacket_getD_2, Nat.mod_eq_of_lt hf]
  have h3 := encodePacket_readU32_3 i t f p hi
  have h7 := encodePacket_readU32_7 i t f p ht
  have h11 := encodePacket_readU32_11 i t f p hlp
  have h15 := encodePacket_readU32_15 i t f p
  have hdt := encodePacket_drop_take i t f p
  have hnotshort : ¬ (encodePacket i t p f).length < HEADER_SIZE := by
    rw [hlen]
    norm_num [FRAME_BYTES, FRAME_WIDTH, FRAME_HEIGHT, HEADER_SIZE]
  simp only [decodePacket, hm, h2, h3, h7, h11, h15, hdt, if_neg hnotshort,
    ne_eq, not_true_eq_false, if_false]

/-- Witness for C4 at the concrete input `i = 1`, `t = 2`, `p = [7]`,
`f = 0`. -/
theorem encode_decode_packet_roundtrip_witness :
    (encodePacket 1 2 [7] 0).length = FRAME_BYTES ∧
    decodePacket (encodePacket 1 2 [7] 0) =
      some ({ magic := MAGIC, flags := 0, packetIndex := 1, totalPackets := 2,
              payloadLength := [7].length, checksum := crc32 [7] }, [7]) ∧
    ∀ k, HEADER_SIZE + [7].length ≤ k → (encodePacket 1 2 [7] 0).getD k 0 = 0 :=
  encode_decode_packet_roundtrip 1 2 0 [7]
    (by norm_num [MAX_PAYLOAD, FRAME_BYTES, FRAME_WIDTH, FRAME_HEIGHT, HEADER_SIZE])
    (by norm_num [UINT32]) (by norm_num [UINT32]) (by norm_num)

/-! ### Claim C7: CRC32 test vectors -/

set_option maxRecDepth 4000 in
/-- C7: the table-driven CRC32 (reflected polynomial `0xEDB88320`, initial
value `0xFFFFFFFF`, final XOR `0xFFFFFFFF`) maps the empty input to 0,
the byte `0x61` to `0xE8B7BE43` and the ASCII digits `"123456789"` to
`0xCBF43926`. -/
theorem crc32_test_vectors :
    crc32 [] = 0x00000000 ∧ crc32 [0x61] = 0xE8B7BE43 ∧
    crc32 [0x31, 0x32, 0x33, 0x34, 0x35, 0x36, 0x37, 0x38, 0x39] = 0xCBF43926 := by
  refine ⟨by decide, by decide, by decide⟩

/-! ### Claim C10: decodePacket on oversized payloadLength -/

/-- C10: any buffer of at least 19 bytes whose first two bytes read
(little-endian) as the magic is decoded to `some` result, with payload
`raw.slice(19, 19 + payloadLength)`, whose length is
`min payloadLength (raw.length - 19)` — an oversized `payloadLength`
silently truncates. -/
theorem decodePacket_truncates (raw : List Nat)
    (hlen : HEADER_SIZE ≤ raw.length) (hmag : readU16 raw 0 = MAGIC) :
    decodePacket raw =
      some ({ magic := MAGIC, flags := raw.getD 2 0,
              packetIndex := readU32 raw 3, totalPackets := readU32 raw 7,
              payloadLength := readU32 raw 11, checksum := readU32 raw 15 },
            (raw.drop HEADER_SIZE).take (readU32 raw 11)) ∧
    ((raw.drop HEADER_SIZE).take (readU32 raw 11)).length =
      min (readU32 raw 11) (raw.length - HEADER_SIZE) := by
  constructor
  · simp only [decodePacket, hmag, if_neg (Nat.not_lt.mpr hlen), ne_eq,
      not_true_eq_false, if_false]
  · simp [List.length_take, List.length_drop]

/-- A 22-byte buffer with valid magic whose `payloadLength` field claims
100 bytes while only 3 payload bytes follow. -/
def rawOversized : List Nat :=
  [2, 219, 0, 0, 0, 0, 0, 0, 0, 0, 0, 100, 0, 0, 0, 0, 0, 0, 0, 1, 2, 3]

/-- Witness for C10 at `rawOversized`. -/
theorem decodePacket_truncates_witness :
    decodePacket rawOversized =
      some ({ magic := MAGIC, flags := rawOversized.getD 2 0,
              packetIndex := readU32 rawOversized 3,
              totalPackets := readU32 rawOversized 7,
              payloadLength := readU32 rawOversized 11,
              checksum := readU32 rawOversized 15 },
            (rawOversized.drop HEADER_SIZE).take (readU32 rawOversized 11)) ∧
    ((rawOversized.drop HEADER_SIZE).take (readU32 rawOversized 11)).length =
      min (readU32 rawOversized 11) (rawOversized.length - HEADER_SIZE) :=
  decodePacket_truncates rawOversized (by decide) (by decide)

/-! ### Claim C5: metadata round trip -/

lemma readU32_append_right (a l : List Nat) (off : Nat) :
    readU32 (a ++ l) (a.length + off) = readU32 l off := by
  induction a generalizing off with
  | nil => simp
  | cons x xs ih =>
    have hx : xs.length + 1 + off = (xs.length + off) + 1 := by omega
    simp only [List.cons_append, List.length_cons, hx, readU32_cons]
    exact ih off

lemma readU32_append_at (a l : List Nat) : readU32 (a ++ l) a.length = readU32 l 0 := by
  simpa using readU32_append_right a l 0

lemma getD_append_at (a l : List Nat) (d : Nat) :
    (a ++ l).getD a.length d = l.getD 0 d := by
  induction a with
  | nil => simp
  | cons x xs ih =>
    simp only [List.cons_append, List.length_cons, List.getD_cons_succ]
    exact ih

lemma encodeMetadata_length (nb mb : List Nat) (fs : Nat) (e : Bool) :
    (encodeMetadata nb fs mb e).length = 13 + nb.length + mb.length := by
  simp only [encodeMetadata, le4, List.length_append, List.length_cons,
    List.length_nil]
  omega

/-- C5: `decodeMetadata` inverts `encodeMetadata` on every 4-tuple whose
string byte lengths and file size fit in 32 bits (strings enter and leave
as their UTF-8 bytes, the runtime codec being a bijection on well-formed
strings). -/
theorem metadata_roundtrip (nb mb : List Nat) (fs : Nat) (e : Bool)
    (hnb : nb.length < UINT32) (hmb : mb.length < UINT32) (hfs : fs < UINT32) :
    decodeMetadata (encodeMetadata nb fs mb e) = some (nb, fs, mb, e) := by
  have hlen := encodeMetadata_length nb mb fs e
  have hE1 : encodeMetadata nb fs mb e =
      le4 nb.length ++ (nb ++ (le4 fs ++ (le4 mb.length ++ (mb ++ [if e then 1 else 0])))) := by
    simp [encodeMetadata, List.append_assoc]
  have hE2 : encodeMetadata nb fs mb e =
      (le4 nb.length ++ nb) ++ (le4 fs ++ (le4 mb.length ++ (mb ++ [if e then 1 else 0]))) := by
    simp [encodeMetadata, List.append_assoc]
  have hE3 : encodeMetadata nb fs mb e =
      ((le4 nb.length ++ nb) ++ le4 fs) ++ (le4 mb.length ++ (mb ++ [if e then 1 else 0])) := by
    simp [encodeMetadata, List.append_assoc]
  have hE4 : encodeMetadata nb fs mb e =
      (((le4 nb.length ++ nb) ++ le4 fs) ++ le4 mb.length) ++ (mb ++ [if e then 1 else 0]) := by
    simp [encodeMetadata, List.append_assoc]
  have hE5 : encodeMetadata nb fs mb e =
      ((((le4 nb.length ++ nb) ++ le4 fs) ++ le4 mb.length) ++ mb) ++ [if e then 1 else 0] := by
    simp [encodeMetadata, List.append_assoc]
  have hlen2 : ((le4 nb.length ++ nb)).length = 4 + nb.length := by
    simp [le4]; omega
  have hlen3 : (((le4 nb.length ++ nb) ++ le4 fs)).length = 8 + nb.length := by
    simp [le4]; omega
  have hlen4 : ((((le4 nb.length ++ nb) ++ le4 fs) ++ le4 mb.length)).length
      = 12 + nb.length := by simp [le4]; omega
  have hlen5 : (((((le4 nb.length ++ nb) ++ le4 fs) ++ le4 mb.length) ++ mb)).length
      = 12 + nb.length + mb.length := by simp [le4]; omega
  have h0 : getU32? (encodeMetadata nb fs mb e) 0 = some nb.length := by
    rw [getU32?, if_pos (by omega)]
    rw [hE1, readU32_le4_append _ _ hnb]
  have hname : ((encodeMetadata nb fs mb e).drop 4).take nb.length = nb := by
    rw [hE1]
    have h4 : (4 : Nat) = (le4 nb.length).length := rfl
    rw [h4, List.drop_left]
    exact List.take_left nb _
  have hfsr : getU32? (encodeMetadata nb fs mb e) (4 + nb.length) = some fs := by
    rw [getU32?, if_pos (by omega)]
    rw [hE2, ← hlen2, readU32_append_at, readU32_le4_append _ _ hfs]
  have hmlr : getU32? (encodeMetadata nb fs mb e) (8 + nb.length) = some mb.length := by
    rw [getU32?, if_pos (by omega)]
    rw [hE3, ← hlen3, readU32_append_at, readU32_le4_append _ _ hmb]
  have hmime : ((encodeMetadata nb fs mb e).drop (12 + nb.length)).take mb.length = mb := by
    rw [hE4, ← hlen4, List.drop_left]
    exact List.take_left mb _
  have hflag : (encodeMetadata nb fs mb e).getD (12 + nb.length + mb.length) 0
      = if e then 1 else 0 := by
    rw [hE5, ← hlen5, getD_append_at]
    rfl
  simp only [decodeMetadata, h0, hfsr, hmlr, Option.some_bind]
  rw [hname, hmime, hflag]
  cases e <;> rfl

/-- Witness for C5 at filename bytes `[104, 105]`, size 3, MIME bytes
`[97]`, encrypted flag `true`. -/
theorem metadata_roundtrip_witness :
    decodeMetadata (encodeMetadata [104, 105] 3 [97] true)
      = some ([104, 105], 3, [97], true) :=
  metadata_roundtrip [104, 105] [97] 3 true (by norm_num [UINT32])
    (by norm_num [UINT32]) (by norm_num [UINT32])

/-! ### Claim C9: malformed metadata -/

/-- C9 counterexample: the 15-byte frame-0 payload below declares
`nameLen = 2` and `mimeLen = 3` (so it needs 18 bytes) but is shorter
than declared; `decodeMetadata` does not fail — there is no
`MalformedMetadata` error in the code — it succeeds, silently truncating
the MIME string to the single byte `[88]`. -/
theorem decodeMetadata_truncation_counterexample :
    ([2, 0, 0, 0, 65, 66, 7, 0, 0, 0, 3, 0, 0, 0, 88] : List Nat).length
        < 4 + 2 + 4 + 4 + 3 + 1 ∧
    decodeMetadata [2, 0, 0, 0, 65, 66, 7, 0, 0, 0, 3, 0, 0, 0, 88]
      = some ([65, 66], 7, [88], false) := by
  refine ⟨by norm_num, by decide⟩

/-- C9 amended: a frame-0 payload too short for one of the three 4-byte
header fields makes `decodeMetadata` throw the `DataView` `RangeError`
(modelled as `none`) — in particular any payload of fewer than 4 bytes
fails that way; a payload that only truncates the string bytes decodes
successfully with truncated strings (see the counterexample), and
non-UTF-8 bytes are replaced, not rejected.  No `MalformedMetadata`
error exists. -/
theorem decodeMetadata_short_payload_range_error (p : List Nat)
    (h : p.length < 4) : decodeMetadata p = none := by
  rw [decodeMetadata, getU32?, if_neg (by omega)]
  rfl

/-- Witness for the amended C9 at the 2-byte payload `[1, 2]`. -/
theorem decodeMetadata_short_payload_range_error_witness :
    ([1, 2] : List Nat).length < 4 ∧ decodeMetadata [1, 2] = none :=
  ⟨by norm_num, decodeMetadata_short_payload_range_error [1, 2] (by norm_num)⟩

/-! ### Claim C2: the PRNG behind getRepairSources -/

/-- Modelled from the claim's words: the same state transition with every
shift logical (zero-fill). -/
def xorshift32StepLogical (x : Nat) : Nat :=
  let a := x ^^^ ((x <<< 13) % UINT32)
  let b := a ^^^ (a >>> 17)
  b ^^^ ((b <<< 5) % UINT32)

/-- Interpret a 32-bit pattern as a signed (two's complement) integer. -/
def toInt32 (x : Nat) : Int := if x < 2 ^ 31 then (x : Int) else (x : Int) - UINT32

/-- Reduce a signed integer back to its unsigned 32-bit pattern. -/
def toUint32 (v : Int) : Nat := (v % (UINT32 : Int)).toNat

/-- Modelled from the amended claim: `>> 17` interprets the state as a
signed 32-bit integer, floor-divides by `2^17` (the sign-propagating
shift) and reinterprets the result as a 32-bit pattern. -/
def sar17Signed (x : Nat) : Nat := toUint32 (toInt32 x / 2 ^ 17)

/-- Modelled from the amended claim: the transition whose middle shift is
the arithmetic one. -/
def xorshift32StepArith (x : Nat) : Nat :=
  let a := x ^^^ ((x <<< 13) % UINT32)
  let b := a ^^^ sar17Signed a
  b ^^^ ((b <<< 5) % UINT32)

lemma lor_one_odd (a : Nat) : (a ||| 1) % 2 = 1 := by
  have h : (a ||| 1).testBit 0 = true := by
    simp [Nat.testBit_lor]
  simpa [Nat.testBit_zero] using h

lemma lor_lt_u32 {x y : Nat} (hx : x < UINT32) (hy : y < UINT32) :
    x ||| y < UINT32 := by
  have h32 : UINT32 = 2 ^ 32 := by norm_num [UINT32]
  rw [h32] at hx hy ⊢
  exact Nat.bitwise_lt_two_pow hx hy

lemma jsSar17_eq_signed (x : Nat) (hx : x < UINT32) : jsSar17 x = sar17Signed x := by
  unfold jsSar17 sar17Signed toInt32 toUint32
  rw [Nat.shiftRight_eq_div_pow]
  simp only [UINT32] at *
  norm_num
  by_cases h : x < 2147483648
  · rw [if_pos (by norm_num; omega), if_pos (by omega)]
    omega
  · rw [if_neg (by norm_num; omega), if_neg (by omega)]
    omega

lemma jsSar17_lt (x : Nat) (hx : x < UINT32) : jsSar17 x < UINT32 := by
  unfold jsSar17
  rw [Nat.shiftRight_eq_div_pow]
  simp only [UINT32] at *
  norm_num
  split <;> omega

lemma xorshift32Step_lt (x : Nat) (hx : x < UINT32) :
    xorshift32Step x < UINT32 := by
  unfold xorshift32Step
  have h1 : x ^^^ ((x <<< 13) % UINT32) < UINT32 :=
    xor_lt_u32 hx (Nat.mod_lt _ (by norm_num [UINT32]))
  have h2 : (x ^^^ ((x <<< 13) % UINT32)) ^^^ jsSar17 (x ^^^ ((x <<< 13) % UINT32)) < UINT32 :=
    xor_lt_u32 h1 (jsSar17_lt _ h1)
  exact xor_lt_u32 h2 (Nat.mod_lt _ (by norm_num [UINT32]))

/-- C2 counterexample: on the very PRNG stream of repair packet 0, the
first call agrees with the all-logical-shifts model but the second call
does not: the code's `>>` is sign-propagating, not zero-fill. -/
theorem xorshift_logical_shift_counterexample :
    xorshift32Step (seedOf 0) = xorshift32StepLogical (seedOf 0) ∧
    xorshift32Step (xorshift32Step (seedOf 0)) ≠
      xorshift32StepLogical (xorshift32StepLogical (seedOf 0)) := by
  refine ⟨by decide, by decide⟩

/-- C2 amended: the PRNG is a xorshift over unsigned 32-bit words whose
left shifts wrap modulo `2^32` and whose right shift is arithmetic
(sign-propagating on the signed 32-bit state); each call returns the
post-update state as an unsigned 32-bit value, and the seed for repair
`r` is `(r · 2654435761 + 1) | 1` reduced modulo `2^32`, which is odd and
hence nonzero. -/
theorem xorshift_arithmetic_shift_spec (x r : Nat) (hx : x < UINT32) :
    xorshift32Step x = xorshift32StepArith x ∧
    xorshift32Step x < UINT32 ∧
    seedOf r = ((r * 2654435761 + 1) % UINT32) ||| 1 ∧
    seedOf r % 2 = 1 ∧ 0 < seedOf r ∧ seedOf r < UINT32 := by
  have ha : x ^^^ ((x <<< 13) % UINT32) < UINT32 :=
    xor_lt_u32 hx (Nat.mod_lt _ (by norm_num [UINT32]))
  refine ⟨?_, xorshift32Step_lt x hx, rfl, ?_, ?_, ?_⟩
  · simp only [xorshift32Step, xorshift32StepArith, jsSar17_eq_signed _ ha]
  · exact lor_one_odd _
  · have h := lor_one_odd ((r * 2654435761 + 1) % UINT32)
    have hs : seedOf r = ((r * 2654435761 + 1) % UINT32) ||| 1 := rfl
    omega
  · exact lor_lt_u32 (Nat.mod_lt _ (by norm_num [UINT32])) (by norm_num [UINT32])


/-- Witness for the amended C2 at state 5 and repair index 0. -/
theorem xorshift_arithmetic_shift_spec_witness :
    xorshift32Step 5 = xorshift32StepArith 5 ∧
    xorshift32Step 5 < UINT32 ∧
    seedOf 0 = ((0 * 2654435761 + 1) % UINT32) ||| 1 ∧
    seedOf 0 % 2 = 1 ∧ 0 < seedOf 0 ∧ seedOf 0 < UINT32 :=
  xorshift_arithmetic_shift_spec 5 0 (by norm_num [UINT32])

/-! ### Claim C3: shape of getRepairSources -/

lemma degreeOf_of_two_le (v n : Nat) (hn : 2 ≤ n) :
    degreeOf v n = some (2 + v % min 4 (n - 1)) := by
  unfold degreeOf
  simp only
  have habs : (min 4 ((n : Int) - 1)).natAbs = min 4 (n - 1) := by omega
  rw [if_neg (by omega), habs]

lemma selectLoop_spec (n D : Nat) (hn : 1 ≤ n) :
    ∀ fuel s sel out,
      sel.length ≤ D →
      (∀ x ∈ sel, ∃ i, x = some i ∧ i < n) →
      sel.Nodup →
      selectLoop n (some D) fuel s sel = some out →
      out.length = D ∧ (∀ x ∈ out, ∃ i, x = some i ∧ i < n) ∧ out.Nodup := by
  intro fuel
  induction fuel with
  | zero =>
    intro s sel out h1 h2 h3 h4
    unfold selectLoop at h4
    by_cases hc : sizeLt sel.length (some D) = true
    · rw [if_pos hc] at h4
      cases h4
    · rw [if_neg hc] at h4
      cases h4
      have hge : ¬ sel.length < D := by simpa [sizeLt] using hc
      exact ⟨by omega, h2, h3⟩
  | succ f ih =>
    intro s sel out h1 h2 h3 h4
    unfold selectLoop at h4
    by_cases hc : sizeLt sel.length (some D) = true
    · rw [if_pos hc] at h4
      have hlt : sel.length < D := by simpa [sizeLt] using hc
      set v : Option Nat := jsModOpt (xorshift32Step s) n with hv
      have hvval : v = some (xorshift32Step s % n) := by
        simp [hv, jsModOpt]
        omega
      by_cases hmem : v ∈ sel
      · have hadd : setAdd sel v = sel := by simp [setAdd, hmem]
        rw [hadd] at h4
        exact ih _ _ _ h1 h2 h3 h4
      · have hadd : setAdd sel v = sel ++ [v] := by simp [setAdd, hmem]
        rw [hadd] at h4
        refine ih _ _ _ ?_ ?_ ?_ h4
        · simp only [List.length_append, List.length_cons, List.length_nil]
          omega
        · intro x hx
          rcases List.mem_append.mp hx with hx | hx
          · exact h2 x hx
          · have : x = v := by simpa using hx
            exact ⟨xorshift32Step s % n, by rw [this, hvval],
              Nat.mod_lt _ (by omega)⟩
        · refine List.Nodup.append h3 (List.nodup_singleton v) ?_
          intro x hx hx'
          have : x = v := by simpa using hx'
          exact hmem (this ▸ hx)
    · rw [if_neg hc] at h4
      cases h4
      have hge : ¬ sel.length < D := by simpa [sizeLt] using hc
      exact ⟨by omega, h2, h3⟩

lemma natList?_eq_some :
    ∀ (sel : List (Option Nat)) (l : List Nat),
      natList? sel = some l → sel = l.map some := by
  intro sel
  induction sel with
  | nil =>
    intro l h
    simp only [natList?] at h
    cases h
    rfl
  | cons x rest ih =>
    intro l h
    cases x with
    | none => simp [natList?] at h
    | some a =>
      simp only [natList?, Option.map_eq_some'] at h
      obtain ⟨l', hl', rfl⟩ := h
      simp [ih l' hl']

/-- C3: whenever the selection loop terminates (`some`), the result of
`getRepairSources r n` for `n ≥ 2` is a list of pairwise-distinct indices
below `n` whose size lies between 2 and `min 5 n`. -/
theorem getRepairSources_degree_bounds (fuel r n : Nat) (l : List Nat)
    (hn : 2 ≤ n) (h : getRepairSources fuel r n = some l) :
    l.Nodup ∧ (∀ i ∈ l, i < n) ∧ 2 ≤ l.length ∧ l.length ≤ min 5 n := by
  unfold getRepairSources at h
  rcases Option.bind_eq_some.mp h with ⟨raw, hraw, hnat⟩
  simp only [getRepairSourcesRaw] at hraw
  rw [degreeOf_of_two_le _ _ hn] at hraw
  have hmod : xorshift32Step (seedOf r) % min 4 (n - 1) < min 4 (n - 1) :=
    Nat.mod_lt _ (by omega)
  obtain ⟨hlen, hmem, hnodup⟩ :=
    selectLoop_spec n (2 + xorshift32Step (seedOf r) % min 4 (n - 1))
      (by omega) fuel _ [] raw (by simp) (by simp) (by simp) hraw
  have hsel := natList?_eq_some raw l hnat
  subst hsel
  refine ⟨?_, ?_, ?_, ?_⟩
  · exact (List.nodup_map_iff (Option.some_injective Nat)).mp hnodup
  · intro i hi
    rcases hmem (some i) (List.mem_map_of_mem some hi) with ⟨j, hj, hjn⟩
    cases hj
    exact hjn
  · have : (l.map some).length = l.length := List.length_map l some
    omega
  · have : (l.map some).length = l.length := List.length_map l some
    omega

/-- Witness for C3 at `r = 0`, `n = 4`, fuel 1000 (the loop terminates
there and yields `[1, 2]`). -/
theorem getRepairSources_degree_bounds_witness :
    getRepairSources 1000 0 4 = some [1, 2] ∧
    ([1, 2] : List Nat).Nodup ∧ (∀ i ∈ ([1, 2] : List Nat), i < 4) ∧
    2 ≤ ([1, 2] : List Nat).length ∧ ([1, 2] : List Nat).length ≤ min 5 4 :=
  ⟨by decide, getRepairSources_degree_bounds 1000 0 4 [1, 2] (by norm_num) (by decide)⟩

/-! ### Claim C8: encoding the empty input -/

/-- The chunk-splitting loop of the encode path
(`for (offset = 0; offset < fileBytes.length; offset += chunkSize)`):
each iteration pushes a fresh `chunkSize` buffer holding the next slice,
zero-padded; an empty input runs zero iterations. -/
def chunkBytes (bytes : List Nat) : List (List Nat) :=
  if h : bytes = [] then []
  else
    (bytes.take MAX_PAYLOAD
        ++ List.replicate (MAX_PAYLOAD - (bytes.take MAX_PAYLOAD).length) 0)
      :: chunkBytes (bytes.drop MAX_PAYLOAD)
termination_by bytes.length
decreasing_by
  simp only [List.length_drop]
  have h1 : MAX_PAYLOAD = 6220781 := rfl
  have h2 : bytes.length ≠ 0 := fun hz => h (List.eq_nil_of_length_eq_zero hz)
  omega

lemma selectLoop_zero_sources :
    ∀ fuel s, selectLoop 0 (some 2) fuel s [none] = none := by
  intro fuel
  induction fuel with
  | zero =>
    intro s
    unfold selectLoop
    rw [if_pos (by simp [sizeLt])]
  | succ f ih =>
    intro s
    unfold selectLoop
    rw [if_pos (by simp [sizeLt])]
    have hadd : setAdd [none] (jsModOpt (xorshift32Step s) 0) = [none] := by
      simp [setAdd, jsModOpt]
    rw [hadd]
    exact ih _

lemma getRepairSources_zero_sources (fuel r : Nat) :
    getRepairSources fuel r 0 = none := by
  unfold getRepairSources
  have hraw : getRepairSourcesRaw fuel r 0 = none := by
    simp only [getRepairSourcesRaw]
    have hdeg : degreeOf (xorshift32Step (seedOf r)) 0 = some 2 := by
      unfold degreeOf
      norm_num [Nat.mod_one]
    rw [hdeg]
    cases fuel with
    | zero =>
      unfold selectLoop
      rw [if_pos (by simp [sizeLt])]
    | succ f =>
      unfold selectLoop
      rw [if_pos (by simp [sizeLt])]
      have hadd : setAdd [] (jsModOpt (xorshift32Step (xorshift32Step (seedOf r))) 0)
          = [none] := by
        simp [setAdd, jsModOpt]
      rw [hadd]
      exact selectLoop_zero_sources f _
  rw [hraw]
  rfl

/-- C8: the empty input yields zero source chunks, and on zero chunks the
repair generator still asks for one repair packet; its source-selection
loop adds `rng() % 0 = NaN` to the set forever (the set never grows past
one element), so no amount of fuel makes `generateRepairPackets` return:
the encode pipeline hangs instead of failing with an `EmptyInput` error
(no such error exists in the code). -/
theorem generateRepairPackets_empty_input_no_fuel_suffices :
    chunkBytes [] = [] ∧ ∀ fuel, generateRepairPackets fuel [] = none := by
  constructor
  · rw [chunkBytes]
    rfl
  · intro fuel
    unfold generateRepairPackets
    simp only [List.length_nil]
    have hr : List.range (max 1 ((3 * 0 + 9) / 10)) = [0] := rfl
    rw [hr]
    simp only [List.map_cons, List.map_nil, getRepairSources_zero_sources fuel 0]
    rfl

/-! ### Claim C6: pixel round trip -/

lemma getD_append_add (a l : List Nat) (k d : Nat) :
    (a ++ l).getD (a.length + k) d = l.getD k d := by
  induction a with
  | nil => simp
  | cons x xs ih =>
    simp only [List.cons_append, List.length_cons]
    have : xs.length + 1 + k = (xs.length + k) + 1 := by omega
    rw [this, List.getD_cons_succ]
    exact ih

lemma flatMap_range_length (f : Nat → List Nat) (c : Nat)
    (hf : ∀ i, (f i).length = c) (n : Nat) :
    ((List.range n).flatMap f).length = n * c := by
  induction n with
  | zero => simp
  | succ m ih =>
    rw [List.range_succ]
    simp only [List.flatMap_append, List.flatMap_cons, List.flatMap_nil,
      List.append_nil, List.length_append, ih, hf]
    ring

lemma flatMap_range_getD (f : Nat → List Nat) (c : Nat)
    (hf : ∀ i, (f i).length = c) (n q r d : Nat) (hq : q < n) (hr : r < c) :
    ((List.range n).flatMap f).getD (q * c + r) d = (f q).getD r d := by
  induction n with
  | zero => omega
  | succ m ih =>
    rw [List.range_succ]
    simp only [List.flatMap_append, List.flatMap_cons, List.flatMap_nil,
      List.append_nil]
    by_cases h : q < m
    · have hlt : q * c + r < ((List.range m).flatMap f).length := by
        rw [flatMap_range_length f c hf m]
        have h1 : (q + 1) * c ≤ m * c := Nat.mul_le_mul_right c (by omega)
        have h2 : (q + 1) * c = q * c + c := by ring
        omega
      rw [List.getD_eq_getElem?_getD, List.getElem?_append_left hlt,
        ← List.getD_eq_getElem?_getD]
      exact ih h
    · have hq' : q = m := by omega
      subst hq'
      have hL : ((List.range q).flatMap f).length = q * c :=
        flatMap_range_length f c hf q
      have : q * c + r = ((List.range q).flatMap f).length + r := by omega
      rw [this, getD_append_add]

lemma bytesToPixels_block_length (b : List Nat) (i : Nat) :
    ([clamp8 (b.getD (3 * i) 0), clamp8 (b.getD (3 * i + 1) 0),
      clamp8 (b.getD (3 * i + 2) 0), 255] : List Nat).length = 4 := rfl

lemma clamp8_getD (b : List Nat) (hbytes : ∀ x ∈ b, x ≤ 255) (k : Nat) :
    clamp8 (b.getD k 0) = b.getD k 0 := by
  by_cases hk : k < b.length
  · rw [List.getD_eq_getElem b 0 hk]
    exact min_eq_left (hbytes _ (b.getElem_mem hk))
  · rw [List.getD_eq_default b 0 (by omega)]
    rfl

lemma bytesToPixels_length (b : List Nat) :
    (bytesToPixels b).length = FRAME_WIDTH * FRAME_HEIGHT * 4 := by
  unfold bytesToPixels
  exact flatMap_range_length
    (fun i => [clamp8 (b.getD (3 * i) 0), clamp8 (b.getD (3 * i + 1) 0),
      clamp8 (b.getD (3 * i + 2) 0), 255]) 4 (fun i => rfl) _

lemma bytesToPixels_getD (b : List Nat) (i j : Nat)
    (hi : i < FRAME_WIDTH * FRAME_HEIGHT) (hj : j < 4) :
    (bytesToPixels b).getD (i * 4 + j) 0 =
      ([clamp8 (b.getD (3 * i) 0), clamp8 (b.getD (3 * i + 1) 0),
        clamp8 (b.getD (3 * i + 2) 0), 255] : List Nat).getD j 0 := by
  unfold bytesToPixels
  exact flatMap_range_getD
    (fun i => [clamp8 (b.getD (3 * i) 0), clamp8 (b.getD (3 * i + 1) 0),
      clamp8 (b.getD (3 * i + 2) 0), 255]) 4 (fun i => rfl) _ i j 0 hi hj

lemma bytesToPixels_maps (b : List Nat) (hbytes : ∀ x ∈ b, x ≤ 255) :
    ∀ i, i < 1920 * 1080 →
      (bytesToPixels b).getD (4 * i) 0 = b.getD (3 * i) 0 ∧
      (bytesToPixels b).getD (4 * i + 1) 0 = b.getD (3 * i + 1) 0 ∧
      (bytesToPixels b).getD (4 * i + 2) 0 = b.getD (3 * i + 2) 0 ∧
      (bytesToPixels b).getD (4 * i + 3) 0 = 255 := by
  have hWH : FRAME_WIDTH * FRAME_HEIGHT = 1920 * 1080 := rfl
  have hmap : ∀ i j, i < 1920 * 1080 → j < 4 →
      (bytesToPixels b).getD (4 * i + j) 0 =
        ([clamp8 (b.getD (3 * i) 0), clamp8 (b.getD (3 * i + 1) 0),
          clamp8 (b.getD (3 * i + 2) 0), 255] : List Nat).getD j 0 := by
    intro i j hi hj
    have := bytesToPixels_getD b i j (by rw [hWH]; exact hi) hj
    rwa [show i * 4 + j = 4 * i + j by ring] at this
  intro i hi
  refine ⟨?_, ?_, ?_, ?_⟩
  · have h := hmap i 0 hi (by norm_num)
    rw [List.getD_cons_zero] at h
    rw [show 4 * i + 0 = 4 * i by ring] at h
    rw [h, clamp8_getD b hbytes]
  · have h := hmap i 1 hi (by norm_num)
    rw [List.getD_cons_succ, List.getD_cons_zero] at h
    rw [h, clamp8_getD b hbytes]
  · have h := hmap i 2 hi (by norm_num)
    rw [List.getD_cons_succ, List.getD_cons_succ, List.getD_cons_zero] at h
    rw [h, clamp8_getD b hbytes]
  · have h := hmap i 3 hi (by norm_num)
    rw [List.getD_cons_succ, List.getD_cons_succ, List.getD_cons_succ,
      List.getD_cons_zero] at h
    exact h

lemma pixelsToBytes_eq_of_maps (N : Nat) (P b : List Nat)
    (hPlen : P.length = N * 4) (hblen : b.length = N * 3)
    (hmap : ∀ i, i < N →
      P.getD (4 * i) 0 = b.getD (3 * i) 0 ∧
      P.getD (4 * i + 1) 0 = b.getD (3 * i + 1) 0 ∧
      P.getD (4 * i + 2) 0 = b.getD (3 * i + 2) 0) :
    pixelsToBytes P = b := by
  have hdiv : P.length / 4 = N := by omega
  have hB2 : pixelsToBytes P = (List.range N).flatMap (fun i =>
      [P.getD (4 * i) 0, P.getD (4 * i + 1) 0, P.getD (4 * i + 2) 0]) := by
    unfold pixelsToBytes
    rw [hdiv]
  have hB2len : (pixelsToBytes P).length = b.length := by
    rw [hB2, flatMap_range_length (fun i =>
      [P.getD (4 * i) 0, P.getD (4 * i + 1) 0, P.getD (4 * i + 2) 0]) 3
      (fun i => rfl), hblen]
  apply List.ext_getElem hB2len
  intro k hk1 hk2
  have hkN : k < N * 3 := by rw [hblen] at hk2; exact hk2
  have hk3 : k / 3 < N := by omega
  have hget : (pixelsToBytes P).getD k 0 = b.getD k 0 := by
    rw [hB2]
    have hstep := flatMap_range_getD (fun i =>
        [P.getD (4 * i) 0, P.getD (4 * i + 1) 0, P.getD (4 * i + 2) 0]) 3
      (fun i => rfl) N (k / 3) (k % 3) 0 hk3 (by omega)
    rw [show k / 3 * 3 + k % 3 = k by omega] at hstep
    rw [hstep]
    have h3 : k % 3 = 0 ∨ k % 3 = 1 ∨ k % 3 = 2 := by omega
    rcases h3 with h3 | h3 | h3 <;> rw [h3]
    · have := (hmap (k / 3) hk3).1
      simp only [List.getD_cons_zero]
      rw [this, show 3 * (k / 3) = k by omega]
    · have := (hmap (k / 3) hk3).2.1
      simp only [List.getD_cons_succ, List.getD_cons_zero]
      rw [this, show 3 * (k / 3) + 1 = k by omega]
    · have := (hmap (k / 3) hk3).2.2
      simp only [List.getD_cons_succ, List.getD_cons_zero]
      rw [this, show 3 * (k / 3) + 2 = k by omega]
  rw [← List.getD_eq_getElem _ 0 hk1, ← List.getD_eq_getElem _ 0 hk2]
  exact hget

/-- C6: on a frame-sized byte buffer, `pixelsToBytes ∘ bytesToPixels` is
the identity; `bytesToPixels` emits `1920·1080·4` values, pixel `i`
carrying `R = b[3i]`, `G = b[3i+1]`, `B = b[3i+2]`, `A = 255` with
past-the-end reads as zero. -/
theorem pixel_roundtrip (b : List Nat) (hlen : b.length = FRAME_BYTES)
    (hbytes : ∀ x ∈ b, x ≤ 255) :
    pixelsToBytes (bytesToPixels b) = b ∧
    (bytesToPixels b).length = 1920 * 1080 * 4 ∧
    ∀ i, i < 1920 * 1080 →
      (bytesToPixels b).getD (4 * i) 0 = b.getD (3 * i) 0 ∧
      (bytesToPixels b).getD (4 * i + 1) 0 = b.getD (3 * i + 1) 0 ∧
      (bytesToPixels b).getD (4 * i + 2) 0 = b.getD (3 * i + 2) 0 ∧
      (bytesToPixels b).getD (4 * i + 3) 0 = 255 := by
  have hWH : FRAME_WIDTH * FRAME_HEIGHT = 1920 * 1080 := rfl
  have hmap' := bytesToPixels_maps b hbytes
  have hPlen : (bytesToPixels b).length = 1920 * 1080 * 4 := by
    rw [bytesToPixels_length, hWH]
  refine ⟨?_, hPlen, hmap'⟩
  exact pixelsToBytes_eq_of_maps (1920 * 1080) (bytesToPixels b) b hPlen
    (by rw [hlen]; rfl)
    (fun i hi => ⟨(hmap' i hi).1, (hmap' i hi).2.1, (hmap' i hi).2.2.1⟩)

/-- Witness for C6 at the all-zero frame buffer. -/
theorem pixel_roundtrip_witness :
    pixelsToBytes (bytesToPixels (List.replicate FRAME_BYTES 0)) =
      List.replicate FRAME_BYTES 0 ∧
    (bytesToPixels (List.replicate FRAME_BYTES 0)).length = 1920 * 1080 * 4 ∧
    ∀ i, i < 1920 * 1080 →
      (bytesToPixels (List.replicate FRAME_BYTES 0)).getD (4 * i) 0 =
        (List.replicate FRAME_BYTES 0).getD (3 * i) 0 ∧
      (bytesToPixels (List.replicate FRAME_BYTES 0)).getD (4 * i + 1) 0 =
        (List.replicate FRAME_BYTES 0).getD (3 * i + 1) 0 ∧
      (bytesToPixels (List.replicate FRAME_BYTES 0)).getD (4 * i + 2) 0 =
        (List.replicate FRAME_BYTES 0).getD (3 * i + 2) 0 ∧
      (bytesToPixels (List.replicate FRAME_BYTES 0)).getD (4 * i + 3) 0 = 255 :=
  pixel_roundtrip (List.replicate FRAME_BYTES 0) (List.length_replicate _ _)
    (fun x hx => by rw [List.eq_of_mem_replicate hx]; norm_num)

/-! ### Claim C1: single-loss recovery — XOR algebra -/

lemma xor_xor_cancel (a x y : Nat) : (a ^^^ x) ^^^ (a ^^^ y) = x ^^^ y := by
  rw [Nat.xor_comm a x, Nat.xor_assoc, ← Nat.xor_assoc a a y, Nat.xor_self,
    Nat.zero_xor]

lemma foldl_xor_shift (g : Nat → Nat) :
    ∀ (l : List Nat) (a : Nat),
      l.foldl (fun x j => x ^^^ g j) a = a ^^^ l.foldl (fun x j => x ^^^ g j) 0 := by
  intro l
  induction l with
  | nil => intro a; simp
  | cons j t ih =>
    intro a
    simp only [List.foldl_cons]
    rw [ih (a ^^^ g j), ih (0 ^^^ g j), Nat.zero_xor, Nat.xor_assoc]

lemma foldl_congr_fn {α β : Type} (f g : α → β → α) (l : List β)
    (h : ∀ a x, f a x = g a x) : ∀ a, l.foldl f a = l.foldl g a := by
  induction l with
  | nil => intro a; rfl
  | cons x t ih =>
    intro a
    simp only [List.foldl_cons, h]
    exact ih _

lemma foldl_congr_mem {α β : Type} (f g : α → β → α) :
    ∀ (l : List β), (∀ a x, x ∈ l → f a x = g a x) →
      ∀ a, l.foldl f a = l.foldl g a := by
  intro l
  induction l with
  | nil => intro _ a; rfl
  | cons x t ih =>
    intro h a
    simp only [List.foldl_cons, h a x (List.mem_cons_self x t)]
    exact ih (fun a y hy => h a y (List.mem_cons_of_mem x hy)) _

/-- XOR-ing all of `g` over `s` and then all of `g` except at `i` over `s`
again cancels everything but `g i` (for distinct `s` containing `i`). -/
lemma xor_double_fold (g : Nat → Nat) :
    ∀ (s : List Nat) (i : Nat), s.Nodup → i ∈ s →
      (s.foldl (fun x j => x ^^^ g j) 0) ^^^
        (s.foldl (fun x j => x ^^^ (if j = i then 0 else g j)) 0) = g i := by
  intro s
  induction s with
  | nil => intro i _ hi; cases hi
  | cons j t ih =>
    intro i hnd hi
    have hnd' := hnd.of_cons
    simp only [List.foldl_cons, Nat.zero_xor]
    rw [foldl_xor_shift g t (g j),
      foldl_xor_shift (fun j => if j = i then 0 else g j) t _]
    by_cases hji : j = i
    · subst hji
      have hnotin : j ∉ t := (List.nodup_cons.mp hnd).1
      have hcongr : t.foldl (fun x k => x ^^^ (if k = j then 0 else g k)) 0
          = t.foldl (fun x k => x ^^^ g k) 0 := by
        apply foldl_congr_mem
        intro a x hx
        have : x ≠ j := fun hxj => hnotin (hxj ▸ hx)
        simp [this]
      rw [if_pos rfl, hcongr, Nat.zero_xor, Nat.xor_assoc, Nat.xor_self,
        Nat.xor_zero]
    · have hit : i ∈ t := by
        rcases List.mem_cons.mp hi with h | h
        · exact absurd h.symm hji
        · exact h
      rw [if_neg hji]
      rw [xor_xor_cancel]
      exact ih i hnd' hit

/-! Pointwise behaviour of `xorBytes` and the repair-data folds. -/

lemma xorBytes_length (a b : List Nat) :
    (xorBytes a b).length = max a.length b.length := by
  simp [xorBytes]

lemma xorBytes_getD (a b : List Nat) (k : Nat) :
    (xorBytes a b).getD k 0 = a.getD k 0 ^^^ b.getD k 0 := by
  by_cases hk : k < max a.length b.length
  · unfold xorBytes
    rw [List.getD_eq_getElem _ _ (by simpa using hk)]
    simp
  · rw [List.getD_eq_default _ _ (by rw [xorBytes_length]; omega),
      List.getD_eq_default a _ (by omega), List.getD_eq_default b _ (by omega)]
    rfl

lemma foldl_xorBytes_getD (src : Nat → List Nat) :
    ∀ (s : List Nat) (acc : List Nat) (k : Nat),
      (s.foldl (fun d idx => xorBytes d (src idx)) acc).getD k 0
        = s.foldl (fun x idx => x ^^^ (src idx).getD k 0) (acc.getD k 0) := by
  intro s
  induction s with
  | nil => intro acc k; rfl
  | cons j t ih =>
    intro acc k
    simp only [List.foldl_cons]
    rw [ih, xorBytes_getD]

lemma foldl_xorBytes_length (src : Nat → List Nat) (L : Nat) :
    ∀ (s : List Nat), (∀ j ∈ s, (src j).length = L) →
      ∀ (acc : List Nat), acc.length = L →
        (s.foldl (fun d idx => xorBytes d (src idx)) acc).length = L := by
  intro s
  induction s with
  | nil => intro _ acc h; exact h
  | cons j t ih =>
    intro hs acc hacc
    simp only [List.foldl_cons]
    refine ih (fun x hx => hs x (List.mem_cons_of_mem j hx)) _ ?_
    rw [xorBytes_length, hacc, hs j (List.mem_cons_self j t)]
    omega

lemma foldl_xorBytesIf_getD (src : Nat → List Nat) (i : Nat) :
    ∀ (s : List Nat) (acc : List Nat) (k : Nat),
      (s.foldl (fun d j => if j = i then d else xorBytes d (src j)) acc).getD k 0
        = s.foldl (fun x j => x ^^^ (if j = i then 0 else (src j).getD k 0))
            (acc.getD k 0) := by
  intro s
  induction s with
  | nil => intro acc k; rfl
  | cons j t ih =>
    intro acc k
    simp only [List.foldl_cons]
    by_cases hji : j = i
    · rw [if_pos hji, if_pos hji, Nat.xor_zero, ih]
    · rw [if_neg hji, if_neg hji, ih, xorBytes_getD]

lemma foldl_xorBytesIf_length (src : Nat → List Nat) (i : Nat) (L : Nat) :
    ∀ (s : List Nat), (∀ j ∈ s, j ≠ i → (src j).length = L) →
      ∀ (acc : List Nat), acc.length = L →
        (s.foldl (fun d j => if j = i then d else xorBytes d (src j)) acc).length
          = L := by
  intro s
  induction s with
  | nil => intro _ acc h; exact h
  | cons j t ih =>
    intro hs acc hacc
    simp only [List.foldl_cons]
    by_cases hji : j = i
    · rw [if_pos hji]
      exact ih (fun x hx hxi => hs x (List.mem_cons_of_mem j hx) hxi) _ hacc
    · rw [if_neg hji]
      refine ih (fun x hx hxi => hs x (List.mem_cons_of_mem j hx) hxi) _ ?_
      rw [xorBytes_length, hacc, hs j (List.mem_cons_self j t) hji]
      omega

lemma getD_map_some (l : List (List Nat)) (j : Nat) (hj : j < l.length) :
    (l.map some).getD j none = some (l.getD j []) := by
  rw [List.getD_eq_getElem _ _ (by simpa using hj), List.getD_eq_getElem _ _ hj]
  simp

lemma getD_set_self (l : List (Option (List Nat))) (i : Nat) (hi : i < l.length)
    (v : Option (List Nat)) : (l.set i v).getD i none = v := by
  rw [List.getD_eq_getElem _ _ (by simpa using hi)]
  exact List.getElem_set_self _

lemma getD_set_ne (l : List (Option (List Nat))) (i j : Nat) (hij : i ≠ j)
    (v : Option (List Nat)) : (l.set i v).getD j none = l.getD j none := by
  by_cases hj : j < l.length
  · rw [List.getD_eq_getElem _ _ (by simpa using hj), List.getD_eq_getElem _ _ hj]
    simp [List.getElem_set_ne hij]
  · rw [List.getD_eq_default _ _ (by simp; omega), List.getD_eq_default _ _ (by omega)]

/-! The two reachable shapes of `recoverStep` in the single-loss story. -/

lemma recoverStep_eq_of_filter_nil (rec : List (Option (List Nat)))
    (rep : RepairPacket)
    (hfil : rep.sourceIndices.filter (fun idx => (rec.getD idx none).isNone) = []) :
    recoverStep rec rep = (rec, false) := by
  simp only [recoverStep, hfil]

lemma recoverStep_eq_of_filter_single (rec : List (Option (List Nat)))
    (rep : RepairPacket) (mIdx : Nat)
    (hfil : rep.sourceIndices.filter (fun idx => (rec.getD idx none).isNone)
      = [mIdx]) :
    recoverStep rec rep =
      (rec.set mIdx (some (rep.sourceIndices.foldl
        (fun d idx =>
          if idx = mIdx then d
          else match rec.getD idx none with
            | some b => xorBytes d b
            | none => d)
        rep.data)), true) := by
  simp only [recoverStep, hfil]

lemma recoverStep_allPresent (rec : List (Option (List Nat))) (rep : RepairPacket)
    (h : ∀ j ∈ rep.sourceIndices, (rec.getD j none).isSome) :
    recoverStep rec rep = (rec, false) := by
  apply recoverStep_eq_of_filter_nil
  rw [List.filter_eq_nil_iff]
  intro a ha
  have := h a ha
  cases hx : rec.getD a none with
  | none => rw [hx] at this; simp at this
  | some b => simp

lemma filter_missing_R0 (sources : List (List Nat)) (i : Nat)
    (hi : i < sources.length) (s : List Nat)
    (hs : ∀ j ∈ s, j < sources.length) :
    s.filter (fun idx => ((((sources.map some).set i none).getD idx none)).isNone)
      = s.filter (fun idx => idx == i) := by
  apply List.filter_congr
  intro j hj
  have hjn := hs j hj
  by_cases hji : j = i
  · subst hji
    rw [getD_set_self _ _ (by simpa using hi)]
    simp
  · rw [getD_set_ne _ _ _ (fun h => hji h.symm), getD_map_some _ _ hjn]
    simp [hji]

lemma filter_beq_singleton (i : Nat) :
    ∀ (s : List Nat), s.Nodup → i ∈ s → s.filter (fun idx => idx == i) = [i] := by
  intro s
  induction s with
  | nil => intro _ hi; cases hi
  | cons j t ih =>
    intro hnd hi
    by_cases hji : j = i
    · subst hji
      have hnotin : j ∉ t := (List.nodup_cons.mp hnd).1
      have htail : t.filter (fun idx => idx == j) = [] := by
        rw [List.filter_eq_nil_iff]
        intro a ha
        simp only [beq_iff_eq]
        exact fun h => hnotin (h ▸ ha)
      simp [List.filter_cons, htail]
    · have hit : i ∈ t := by
        rcases List.mem_cons.mp hi with h | h
        · exact absurd h.symm hji
        · exact h
      have hne : (j == i) = false := by simp [hji]
      simp [List.filter_cons, hne]
      exact ih (List.nodup_cons.mp hnd).2 hit

lemma getD_sources_length (sources : List (List Nat)) (L : Nat)
    (hall : ∀ c ∈ sources, c.length = L) :
    ∀ j, j < sources.length → (sources.getD j []).length = L := by
  intro j hj
  rw [List.getD_eq_getElem _ _ hj]
  exact hall _ (sources.getElem_mem hj)

/-- XOR-ing a repair's data with every known source of its set recovers
the one missing chunk. -/
lemma recovery_data_eq (sources : List (List Nat)) (L i : Nat)
    (hall : ∀ c ∈ sources, c.length = L) (hi : i < sources.length)
    (s : List Nat) (hnd : s.Nodup) (hmem : ∀ j ∈ s, j < sources.length)
    (hicov : i ∈ s) :
    s.foldl (fun d idx =>
        if idx = i then d
        else match ((sources.map some).set i none).getD idx none with
          | some b => xorBytes d b
          | none => d)
      (s.foldl (fun d idx => xorBytes d (sources.getD idx []))
        (List.replicate L 0))
      = sources.getD i [] := by
  have hsrcLen := getD_sources_length sources L hall
  have hcongr : ∀ a : List Nat,
      s.foldl (fun d idx =>
        if idx = i then d
        else match ((sources.map some).set i none).getD idx none with
          | some b => xorBytes d b
          | none => d) a
      = s.foldl (fun d idx =>
          if idx = i then d else xorBytes d (sources.getD idx [])) a := by
    intro a
    apply foldl_congr_mem
    intro d x hx
    by_cases hxi : x = i
    · rw [if_pos hxi, if_pos hxi]
    · rw [if_neg hxi, if_neg hxi,
        getD_set_ne _ _ _ (fun h => hxi h.symm),
        getD_map_some _ _ (hmem x hx)]
  rw [hcongr]
  have hlenA : (s.foldl (fun d idx => xorBytes d (sources.getD idx []))
      (List.replicate L 0)).length = L :=
    foldl_xorBytes_length (fun j => sources.getD j []) L s
      (fun j hj => hsrcLen j (hmem j hj)) _ (List.length_replicate _ _)
  have hlenB : (s.foldl (fun d idx =>
      if idx = i then d else xorBytes d (sources.getD idx []))
      (s.foldl (fun d idx => xorBytes d (sources.getD idx []))
        (List.replicate L 0))).length = L :=
    foldl_xorBytesIf_length (fun j => sources.getD j []) i L s
      (fun j hj _ => hsrcLen j (hmem j hj)) _ hlenA
  apply List.ext_getElem (by rw [hlenB, hsrcLen i hi])
  intro k h1 h2
  rw [← List.getD_eq_getElem _ 0 h1, ← List.getD_eq_getElem _ 0 h2]
  rw [foldl_xorBytesIf_getD (fun j => sources.getD j []) i s _ k]
  rw [foldl_xorBytes_getD (fun j => sources.getD j []) s _ k,
    getD_replicate_zero]
  rw [foldl_xor_shift (fun j => if j = i then 0 else (sources.getD j []).getD k 0) s]
  exact xor_double_fold (fun j => (sources.getD j []).getD k 0) s i hnd hicov

lemma set_set_map_some (sources : List (List Nat)) (i : Nat)
    (hi : i < sources.length) :
    ((sources.map some).set i none).set i (some (sources.getD i []))
      = sources.map some := by
  rw [List.set_set]
  apply List.ext_getElem (by simp)
  intro j h1 h2
  by_cases hji : j = i
  · subst hji
    rw [List.getElem_set_self _]
    rw [List.getElem_map]
    rw [List.getD_eq_getElem _ _ hi]
  · rw [List.getElem_set_ne (fun h => hji h.symm)]

/-- A repair packet covering the single missing source recovers it in one
`recoverStep`. -/
lemma recoverStep_R0_covered (sources : List (List Nat)) (L i : Nat)
    (hall : ∀ c ∈ sources, c.length = L) (hi : i < sources.length)
    (rep : RepairPacket) (hnd : rep.sourceIndices.Nodup)
    (hmem : ∀ j ∈ rep.sourceIndices, j < sources.length)
    (hicov : i ∈ rep.sourceIndices)
    (hdata : rep.data = rep.sourceIndices.foldl
      (fun d idx => xorBytes d (sources.getD idx [])) (List.replicate L 0)) :
    recoverStep ((sources.map some).set i none) rep
      = (sources.map some, true) := by
  have hfil : rep.sourceIndices.filter
      (fun idx => ((((sources.map some).set i none).getD idx none)).isNone)
      = [i] := by
    rw [filter_missing_R0 sources i hi _ hmem, filter_beq_singleton i _ hnd hicov]
  rw [recoverStep_eq_of_filter_single _ _ i hfil, hdata,
    recovery_data_eq sources L i hall hi _ hnd hmem hicov,
    set_set_map_some sources i hi]

/-- A repair packet not covering the missing source leaves the single-loss
state untouched. -/
lemma recoverStep_R0_uncovered (sources : List (List Nat)) (i : Nat)
    (hi : i < sources.length) (rep : RepairPacket)
    (hmem : ∀ j ∈ rep.sourceIndices, j < sources.length)
    (hicov : i ∉ rep.sourceIndices) :
    recoverStep ((sources.map some).set i none) rep
      = ((sources.map some).set i none, false) := by
  apply recoverStep_allPresent
  intro j hj
  have hji : j ≠ i := fun h => hicov (h ▸ hj)
  rw [getD_set_ne _ _ _ (fun h => hji h.symm), getD_map_some _ _ (hmem j hj)]
  rfl

lemma recoverStep_S (sources : List (List Nat)) (rep : RepairPacket)
    (hmem : ∀ j ∈ rep.sourceIndices, j < sources.length) :
    recoverStep (sources.map some) rep = (sources.map some, false) := by
  apply recoverStep_allPresent
  intro j hj
  rw [getD_map_some _ _ (hmem j hj)]
  rfl

lemma onePass_S (sources : List (List Nat)) :
    ∀ (reps : List RepairPacket),
      (∀ rep ∈ reps, ∀ j ∈ rep.sourceIndices, j < sources.length) →
      ∀ ch, onePass reps (sources.map some) ch = (sources.map some, ch) := by
  intro reps
  induction reps with
  | nil => intro _ ch; rfl
  | cons rep rest ih =>
    intro h ch
    simp only [onePass, recoverStep_S sources rep
      (h rep (List.mem_cons_self rep rest))]
    rw [Bool.or_false]
    exact ih (fun r hr => h r (List.mem_cons_of_mem rep hr)) ch

lemma onePass_R0_covered (sources : List (List Nat)) (L i : Nat)
    (hall : ∀ c ∈ sources, c.length = L) (hi : i < sources.length) :
    ∀ (reps : List RepairPacket),
      (∀ rep ∈ reps, rep.sourceIndices.Nodup ∧
        (∀ j ∈ rep.sourceIndices, j < sources.length) ∧
        rep.data = rep.sourceIndices.foldl
          (fun d idx => xorBytes d (sources.getD idx []))
          (List.replicate L 0)) →
      (∃ rep ∈ reps, i ∈ rep.sourceIndices) →
      ∀ ch, onePass reps ((sources.map some).set i none) ch
        = (sources.map some, true) := by
  intro reps
  induction reps with
  | nil =>
    intro _ hcov _
    rcases hcov with ⟨rep, hmem, _⟩
    cases hmem
  | cons rep rest ih =>
    intro h hcov ch
    obtain ⟨hnd, hmem, hdata⟩ := h rep (List.mem_cons_self rep rest)
    by_cases hc : i ∈ rep.sourceIndices
    · simp only [onePass,
        recoverStep_R0_covered sources L i hall hi rep hnd hmem hc hdata]
      rw [Bool.or_true]
      exact onePass_S sources rest
        (fun r hr => (h r (List.mem_cons_of_mem rep hr)).2.1) true
    · simp only [onePass, recoverStep_R0_uncovered sources i hi rep hmem hc]
      rw [Bool.or_false]
      refine ih (fun r hr => h r (List.mem_cons_of_mem rep hr)) ?_ ch
      rcases hcov with ⟨r, hr, hir⟩
      rcases List.mem_cons.mp hr with h' | h'
      · exact absurd (h' ▸ hir) hc
      · exact ⟨r, h', hir⟩

lemma onePass_R0_uncovered (sources : List (List Nat)) (i : Nat)
    (hi : i < sources.length) :
    ∀ (reps : List RepairPacket),
      (∀ rep ∈ reps, ∀ j ∈ rep.sourceIndices, j < sources.length) →
      (∀ rep ∈ reps, i ∉ rep.sourceIndices) →
      ∀ ch, onePass reps ((sources.map some).set i none) ch
        = ((sources.map some).set i none, ch) := by
  intro reps
  induction reps with
  | nil => intro _ _ ch; rfl
  | cons rep rest ih =>
    intro h hcov ch
    simp only [onePass, recoverStep_R0_uncovered sources i hi rep
      (h rep (List.mem_cons_self rep rest))
      (hcov rep (List.mem_cons_self rep rest))]
    rw [Bool.or_false]
    exact ih (fun r hr => h r (List.mem_cons_of_mem rep hr))
      (fun r hr => hcov r (List.mem_cons_of_mem rep hr)) ch

/-- Single-loss recovery succeeds exactly through a covering repair: the
first pass recovers slot `i`, the second pass is quiet. -/
lemma recover_single_loss (sources : List (List Nat)) (L i : Nat)
    (hall : ∀ c ∈ sources, c.length = L) (hi : i < sources.length)
    (reps : List RepairPacket)
    (hreps : ∀ rep ∈ reps, rep.sourceIndices.Nodup ∧
      (∀ j ∈ rep.sourceIndices, j < sources.length) ∧
      rep.data = rep.sourceIndices.foldl
        (fun d idx => xorBytes d (sources.getD idx []))
        (List.replicate L 0))
    (hcov : ∃ rep ∈ reps, i ∈ rep.sourceIndices) (psize : Nat) :
    recoverPackets ((sources.map some).set i none) reps psize
      = sources.map some := by
  unfold recoverPackets
  have hlen : ((sources.map some).set i none).length = sources.length := by simp
  rw [hlen]
  obtain ⟨m, hm⟩ : ∃ m, sources.length = m + 1 :=
    ⟨sources.length - 1, by omega⟩
  rw [hm]
  show recoverLoop (m + 2) reps ((sources.map some).set i none) = _
  rw [recoverLoop]
  simp only [onePass_R0_covered sources L i hall hi reps hreps hcov false,
    if_true]
  rw [recoverLoop]
  rw [onePass_S sources reps (fun r hr => (hreps r hr).2.1) false]
  simp

/-- Without a covering repair the single missing slot stays absent. -/
lemma recover_single_loss_uncovered (sources : List (List Nat)) (i : Nat)
    (hi : i < sources.length) (reps : List RepairPacket)
    (hreps : ∀ rep ∈ reps, ∀ j ∈ rep.sourceIndices, j < sources.length)
    (hcov : ∀ rep ∈ reps, i ∉ rep.sourceIndices) (psize : Nat) :
    recoverPackets ((sources.map some).set i none) reps psize
      = (sources.map some).set i none := by
  unfold recoverPackets
  obtain ⟨f, hf⟩ : ∃ f, ((sources.map some).set i none).length + 1 = f + 1 :=
    ⟨((sources.map some).set i none).length, rfl⟩
  rw [hf, recoverLoop]
  rw [onePass_R0_uncovered sources i hi reps hreps hcov false]
  simp

lemma options?_eq_some {α : Type} :
    ∀ (l : List (Option α)) (out : List α), options? l = some out → l = out.map some := by
  intro l
  induction l with
  | nil =>
    intro out h
    simp only [options?] at h
    cases h
    rfl
  | cons x rest ih =>
    intro out h
    cases x with
    | none => simp [options?] at h
    | some a =>
      simp only [options?, Option.map_eq_some'] at h
      obtain ⟨l', hl', rfl⟩ := h
      simp [ih l' hl']

lemma generateRepairPackets_eq_struct (fuel : Nat) (sources : List (List Nat))
    (sets : List (List Nat))
    (h : options? ((List.range (max 1 ((3 * sources.length + 9) / 10))).map
      (fun r => getRepairSources fuel r sources.length)) = some sets) :
    generateRepairPackets fuel sources = some
      (((List.range (max 1 ((3 * sources.length + 9) / 10))).zip sets).map
        (fun p => RepairPacket.mk p.1 p.2
          (p.2.foldl (fun d idx => xorBytes d (sources.getD idx []))
            (List.replicate (sources.headD []).length 0)))) := by
  simp only [generateRepairPackets]
  rw [h]
  rfl

lemma generateRepairPackets_mem (fuel : Nat) (sources : List (List Nat))
    (reps : List RepairPacket)
    (h : generateRepairPackets fuel sources = some reps) :
    ∀ rep ∈ reps,
      (∃ r, getRepairSources fuel r sources.length = some rep.sourceIndices) ∧
      rep.data = rep.sourceIndices.foldl
        (fun d idx => xorBytes d (sources.getD idx []))
        (List.replicate (sources.headD []).length 0) := by
  simp only [generateRepairPackets] at h
  rcases Option.map_eq_some'.mp h with ⟨sets, hsets, rfl⟩
  have hl := options?_eq_some _ _ hsets
  intro rep hrep
  rcases List.mem_map.mp hrep with ⟨p, hp, rfl⟩
  rcases List.mem_iff_getElem.mp hp with ⟨k, hk, hpk⟩
  have hlen : max 1 ((3 * sources.length + 9) / 10) = sets.length := by
    have := congrArg List.length hl
    simpa using this
  have hkm : k < max 1 ((3 * sources.length + 9) / 10) := by
    have : k < min (List.range (max 1 ((3 * sources.length + 9) / 10))).length sets.length := by
      simpa [List.length_zip] using hk
    simp only [List.length_range] at this
    omega
  have hks : k < sets.length := by omega
  have hpeq : p = (k, sets.get ⟨k, hks⟩) := by
    rw [← hpk, List.getElem_zip, List.getElem_range]
    simp [List.get_eq_getElem]
  subst hpeq
  constructor
  · refine ⟨k, ?_⟩
    have h1 := List.getElem_of_eq hl (by simpa using hkm)
    simpa using h1
  · rfl

/-- C1 amended: for `n ∈ {4, 16, 64}` sources of `MAX_PAYLOAD` bytes and
the `0.3`-ratio repair packets, dropping the single source `i` is
recovered exactly when some repair packet's derived source set contains
`i`; a source covered by no repair packet stays absent. -/
theorem single_loss_recoverable_iff_covered
    (n : Nat) (hn : n = 4 ∨ n = 16 ∨ n = 64)
    (sources : List (List Nat)) (hslen : sources.length = n)
    (hall : ∀ c ∈ sources, c.length = MAX_PAYLOAD)
    (i : Nat) (hi : i < n) (reps : List RepairPacket)
    (hgen : generateRepairPackets 1000 sources = some reps) :
    (recoverPackets ((sources.map some).set i none) reps MAX_PAYLOAD).getD i none
      = if ∃ rep ∈ reps, i ∈ rep.sourceIndices
        then some (sources.getD i []) else none := by
  have hn2 : 2 ≤ n := by rcases hn with h | h | h <;> omega
  have hi' : i < sources.length := by omega
  have hhead : (sources.headD []).length = MAX_PAYLOAD := by
    cases sources with
    | nil => simp at hslen; omega
    | cons a t => exact hall a (List.mem_cons_self a t)
  have hmem := generateRepairPackets_mem 1000 sources reps hgen
  have hreps : ∀ rep ∈ reps, rep.sourceIndices.Nodup ∧
      (∀ j ∈ rep.sourceIndices, j < sources.length) ∧
      rep.data = rep.sourceIndices.foldl
        (fun d idx => xorBytes d (sources.getD idx []))
        (List.replicate MAX_PAYLOAD 0) := by
    intro rep hrep
    obtain ⟨⟨r, hr⟩, hdata⟩ := hmem rep hrep
    obtain ⟨hnd, hbound, _, _⟩ :=
      getRepairSources_degree_bounds 1000 r sources.length _ (by omega) hr
    exact ⟨hnd, hbound, by rw [hdata, hhead]⟩
  by_cases hc : ∃ rep ∈ reps, i ∈ rep.sourceIndices
  · rw [if_pos hc,
      recover_single_loss sources MAX_PAYLOAD i hall hi' reps hreps hc MAX_PAYLOAD]
    exact getD_map_some sources i hi'
  · rw [if_neg hc]
    push_neg at hc
    rw [recover_single_loss_uncovered sources i hi' reps
      (fun rep hrep => (hreps rep hrep).2.1) hc MAX_PAYLOAD]
    exact getD_set_self _ _ (by simpa using hi') none

/-- A zero-filled chunk of `MAX_PAYLOAD` bytes. -/
def zeroChunk : List Nat := List.replicate MAX_PAYLOAD 0

/-- Sixteen zero chunks: a 16-source input. -/
def srcs16 : List (List Nat) := List.replicate 16 zeroChunk

/-- Four zero chunks: a 4-source input. -/
def srcs4 : List (List Nat) := List.replicate 4 zeroChunk

/-- The five index sets the PRNG derives for `n = 16` (none contains 0). -/
def sets16 : List (List Nat) :=
  [[1, 2, 9], [4, 6, 15, 5, 7], [8, 9, 15, 6], [14, 8, 9, 10, 3],
   [2, 6, 9, 13, 4]]

/-- The repair packets `generateRepairPackets` produces on `srcs16`. -/
def reps16 : List RepairPacket :=
  ((List.range (max 1 ((3 * srcs16.length + 9) / 10))).zip sets16).map
    (fun p => RepairPacket.mk p.1 p.2
      (p.2.foldl (fun d idx => xorBytes d (srcs16.getD idx []))
        (List.replicate (srcs16.headD []).length 0)))

/-- The two index sets derived for `n = 4` (they cover all of 0..3). -/
def sets4 : List (List Nat) := [[1, 2], [0, 2, 3]]

/-- The repair packets `generateRepairPackets` produces on `srcs4`. -/
def reps4 : List RepairPacket :=
  ((List.range (max 1 ((3 * srcs4.length + 9) / 10))).zip sets4).map
    (fun p => RepairPacket.mk p.1 p.2
      (p.2.foldl (fun d idx => xorBytes d (srcs4.getD idx []))
        (List.replicate (srcs4.headD []).length 0)))

/-- C1 counterexample: with `n = 16` sources the `m = 5` repair packets
derive the index sets `sets16`, none of which contains source 0; dropping
source 0 is NOT recoverable — the recovered list still has `none` in slot
0 instead of the original chunk — refuting "dropping any single source is
always recoverable" for `n ∈ {4, 16, 64}`. -/
theorem single_loss_not_always_recoverable :
    generateRepairPackets 1000 srcs16 = some reps16 ∧
    (recoverPackets ((srcs16.map some).set 0 none) reps16 MAX_PAYLOAD).getD 0 none
      = none ∧
    (recoverPackets ((srcs16.map some).set 0 none) reps16 MAX_PAYLOAD).getD 0 none
      ≠ some (srcs16.getD 0 []) := by
  have hsets : options? ((List.range (max 1 ((3 * srcs16.length + 9) / 10))).map
      (fun r => getRepairSources 1000 r srcs16.length)) = some sets16 := by decide
  have hgen : generateRepairPackets 1000 srcs16 = some reps16 := by
    rw [generateRepairPackets_eq_struct 1000 srcs16 sets16 hsets]
    rfl
  have hres : recoverPackets ((srcs16.map some).set 0 none) reps16 MAX_PAYLOAD
      = (srcs16.map some).set 0 none :=
    recover_single_loss_uncovered srcs16 0 (by decide) reps16 (by decide)
      (by decide) MAX_PAYLOAD
  rw [hres, getD_set_self _ _ (by decide) none]
  exact ⟨hgen, rfl, by simp⟩

/-- Witness for the amended C1 at `n = 4`, dropped source `i = 1` (which
repair packet 0, covering `{1, 2}`, recovers). -/
theorem single_loss_recoverable_iff_covered_witness :
    generateRepairPackets 1000 srcs4 = some reps4 ∧
    (∃ rep ∈ reps4, 1 ∈ rep.sourceIndices) ∧
    (recoverPackets ((srcs4.map some).set 1 none) reps4 MAX_PAYLOAD).getD 1 none
      = if ∃ rep ∈ reps4, 1 ∈ rep.sourceIndices
        then some (srcs4.getD 1 []) else none := by
  have hsets : options? ((List.range (max 1 ((3 * srcs4.length + 9) / 10))).map
      (fun r => getRepairSources 1000 r srcs4.length)) = some sets4 := by decide
  have hgen : generateRepairPackets 1000 srcs4 = some reps4 := by
    rw [generateRepairPackets_eq_struct 1000 srcs4 sets4 hsets]
    rfl
  refine ⟨hgen, by decide, ?_⟩
  exact single_loss_recoverable_iff_covered 4 (Or.inl rfl) srcs4 (by decide)
    (fun c hc => by rw [List.eq_of_mem_replicate hc]; exact List.length_replicate _ _)
    1 (by norm_num) reps4 hgen
